import Mathlib

/-!
The step factory of the build engine and the pipeline listing handler.

A shallow embedding of `exec/garden_factory.go` (the factory that turns a plan
node into a runnable step) and of `api/pipelineserver/list_all.go` (the HTTP
handler listing pipelines), followed by the properties proved about them.

Conventions of the embedding:

* Go pointers to actions (`&GetAction{...}`, `&PutAction{...}`, `&TaskAction{...}`)
  are addresses in an explicit heap of action objects; "the same action" means
  "the same address".
* the Go map `putActions` is an association list from plan IDs to addresses;
* a nil pointer, nil map or nil interface is `none` (or a dedicated `nil`
  constructor); a nil-pointer dereference makes the operation return `none`;
* references to collaborators that the factory only passes along (worker
  client, fetcher, delegates, logger) are abstract handles.
-/

set_option autoImplicit false

/-- An abstract reference to an external collaborator that is only stored or
passed along. -/
abbrev Handle := Nat

/-- An address in the heap of action objects. -/
abbrev Ptr := Nat

/-! ## Go maps as association lists -/

namespace GoMap

/-- The read `m[k]` with presence flag: the value stored under `k`, if any. -/
def lookup {β : Type} (k : String) : List (String × β) → Option β
  | [] => none
  | (k', v) :: m => if k = k' then some v else lookup k m

/-- The write `m[k] = v`: the previous entry under `k`, if any, is replaced. -/
def insert {β : Type} (k : String) (v : β) (m : List (String × β)) : List (String × β) :=
  (k, v) :: m.filter (fun e => !(e.1 == k))

end GoMap

/-! ## Plan data (package `atc`) -/

namespace atc

/-- The identifier of a plan node (`type PlanID string`). -/
abbrev PlanID := String

/-- A resource source: the raw key/value map of the plan. -/
abbrev Source := List (String × String)

/-- Step parameters: the raw key/value map of the plan. -/
abbrev Params := List (String × String)

/-- Placement tags. -/
abbrev Tags := List String

/-- The resource types of a plan node, kept as raw data. -/
abbrev VersionedResourceTypes := List (String × String)

/-- Modelled from the spec: the type `atc.TaskConfig` is not among the sources.
The effective task configuration is a record of named fields (command, inputs,
outputs, image, privileged, params); it is kept as the list of the fields that
are present, each with its value. -/
abbrev TaskConfig := List (String × String)

/-- The fields of `atc.GetPlan` that the factory reads; `rest` stands for the
fields it never reads itself but hands, with the whole record, to
`NewVersionSourceFromPlan`. -/
structure GetPlan where
  Type_ : String
  Name : String
  Resource : String
  Source : Source
  Params : Params
  Tags : Tags
  VersionedResourceTypes : VersionedResourceTypes
  rest : List (String × String)
deriving DecidableEq, Repr

/-- The fields of `atc.PutPlan` that the factory reads. -/
structure PutPlan where
  Type_ : String
  Name : String
  Resource : String
  Source : Source
  Params : Params
  Tags : Tags
  VersionedResourceTypes : VersionedResourceTypes
deriving DecidableEq, Repr

/-- The fields of `atc.TaskPlan` that the factory reads. `Config` is a pointer
and `Params` a map, both may be nil (`none`); a non-nil empty map is
`some []`. -/
structure TaskPlan where
  Name : String
  Privileged : Bool
  Tags : Tags
  ConfigPath : String
  Config : Option TaskConfig
  Params : Option Params
  InputMapping : List (String × String)
  OutputMapping : List (String × String)
  ImageArtifactName : String
  VersionedResourceTypes : VersionedResourceTypes
deriving DecidableEq, Repr

/-- A plan node: its identifier and the pointers to the kind-specific parts,
each of which may be nil. -/
structure Plan where
  ID : PlanID
  Get : Option GetPlan
  Put : Option PutPlan
  Task : Option TaskPlan
deriving DecidableEq, Repr

end atc

/-! ## Build context and container metadata (package `db`) -/

namespace db

/-- The values returned by the getters of the `db.Build` interface that the
factory calls. -/
structure Build where
  ID : Int
  TeamID : Int
  TeamName : String
  PipelineName : String
  JobID : Int
deriving DecidableEq, Repr

/-- The struct `db.ContainerMetadata`: the working directory, which the factory
overwrites, and the remaining fields, which it leaves alone. -/
structure ContainerMetadata where
  WorkingDirectory : String
  rest : List (String × String)
deriving DecidableEq, Repr

end db

/-! ## Credentials (package `creds`) -/

namespace creds

/-- Modelled from the spec: the package `creds` is not among the sources. A
variables scope is a capability scoped to one (team, pipeline) pair, obtained
from the variables factory; it is kept as that factory and that pair. -/
structure Variables where
  variablesFactory : Handle
  teamName : String
  pipelineName : String
deriving DecidableEq, Repr

/-- Modelled from the spec: `creds.NewSource` is not among the sources. The
wrapping resolves nothing when it is built; it is the view made of the scope and
the raw map. -/
structure Source where
  variables_ : Variables
  raw : atc.Source
deriving DecidableEq, Repr

/-- Modelled from the spec: `creds.NewParams` is not among the sources; as
`creds.Source`, for step parameters. -/
structure Params where
  variables_ : Variables
  raw : atc.Params
deriving DecidableEq, Repr

/-- Modelled from the spec: `creds.NewVersionedResourceTypes` is not among the
sources; as `creds.Source`, for the resource types of a node. -/
structure VersionedResourceTypes where
  variables_ : Variables
  raw : atc.VersionedResourceTypes
deriving DecidableEq, Repr

end creds

/-! ## Path helpers of the Go standard library -/

namespace filepath

/-- Splits a path at every separator `/`; `cur` holds, reversed, the characters
of the element being read. -/
def splitAux : List Char → List Char → List (List Char)
  | [], cur => [cur.reverse]
  | c :: cs, cur => if c = '/' then cur.reverse :: splitAux cs [] else splitAux cs (c :: cur)

/-- The elements of a path, empty ones included. -/
def split (path : List Char) : List (List Char) := splitAux path []

/-- One step of `Clean` over the stack (most recent first) of the elements
kept so far: empty elements and `.` are dropped, `..` removes the preceding
element that is not itself `..`, is dropped at the root of a rooted path, and
is kept otherwise. -/
def cleanStep (rooted : Bool) (stack : List (List Char)) (e : List Char) : List (List Char) :=
  if e = [] ∨ e = ['.'] then stack
  else if e = ['.', '.'] then
    match stack with
    | [] => if rooted then [] else [e]
    | top :: below => if top = ['.', '.'] then e :: stack else below
  else e :: stack

/-- The function `filepath.Clean` on Unix: the shortest equivalent path. -/
def Clean (path : List Char) : List Char :=
  if path = [] then ['.']
  else
    let rooted := path.head? = some '/'
    let kept := ((split path).foldl (cleanStep rooted) []).reverse
    let body := List.intercalate ['/'] kept
    if rooted then '/' :: body else if body = [] then ['.'] else body

/-- The function `filepath.Join` on Unix: the non-empty elements are joined with
`/` and the result is cleaned; with no non-empty element the result is empty. -/
def Join (elem : List String) : String :=
  let parts := (elem.map String.data).filter (fun e => !e.isEmpty)
  if parts = [] then "" else String.mk (Clean (List.intercalate ['/'] parts))

end filepath

/-! ## SHA-1 (`crypto/sha1`) and hexadecimal formatting (`fmt`) -/

namespace sha1

/-- Reduction of a number to a 32-bit word. -/
def mask32 (x : Nat) : Nat := x % 4294967296

/-- Left rotation of a 32-bit word by `n` bits. -/
def rotl (x n : Nat) : Nat := mask32 ((x <<< n) ||| (x >>> (32 - n)))

/-- Bitwise complement of a 32-bit word. -/
def not32 (x : Nat) : Nat := 4294967295 - mask32 x

/-- The padding of a message of `len` bytes: the byte `0x80`, zero bytes up to
56 modulo 64, and the length in bits as a 64-bit big-endian number. -/
def padding (len : Nat) : List Nat :=
  128 :: List.replicate ((119 - len % 64) % 64) 0 ++
    (List.range 8).map (fun i => ((8 * len) >>> (8 * (7 - i))) % 256)

/-- The big-endian word made of four bytes. -/
def word (b0 b1 b2 b3 : Nat) : Nat := ((b0 * 256 + b1) * 256 + b2) * 256 + b3

/-- The big-endian words of a block of bytes. -/
def words : List Nat → List Nat
  | b0 :: b1 :: b2 :: b3 :: rest => word b0 b1 b2 b3 :: words rest
  | _ => []

/-- Extends the message schedule by `n` words, each the rotated exclusive or of
the words 3, 8, 14 and 16 places back. -/
def extend : Nat → List Nat → List Nat
  | 0, w => w
  | n + 1, w =>
    let t := w.length
    extend n (w ++ [rotl (w.getD (t - 3) 0 ^^^ w.getD (t - 8) 0 ^^^ w.getD (t - 14) 0
      ^^^ w.getD (t - 16) 0) 1])

/-- The five 32-bit words of the hash state. -/
structure digest where
  h0 : Nat
  h1 : Nat
  h2 : Nat
  h3 : Nat
  h4 : Nat
deriving DecidableEq, Repr

/-- The initial hash state. -/
def init : digest := ⟨0x67452301, 0xEFCDAB89, 0x98BADCFE, 0x10325476, 0xC3D2E1F0⟩

/-- Round `t` of the compression function on the schedule word `w`. -/
def round (t : Nat) (s : digest) (w : Nat) : digest :=
  let f :=
    if t < 20 then (s.h1 &&& s.h2) ||| (not32 s.h1 &&& s.h3)
    else if t < 40 then s.h1 ^^^ s.h2 ^^^ s.h3
    else if t < 60 then (s.h1 &&& s.h2) ||| (s.h1 &&& s.h3) ||| (s.h2 &&& s.h3)
    else s.h1 ^^^ s.h2 ^^^ s.h3
  let k :=
    if t < 20 then 0x5A827999 else if t < 40 then 0x6ED9EBA1
    else if t < 60 then 0x8F1BBCDC else 0xCA62C1D6
  ⟨mask32 (rotl s.h0 5 + f + s.h4 + w + k), s.h0, rotl s.h1 30, s.h2, s.h3⟩

/-- The rounds over the schedule, numbered from `t`. -/
def rounds : Nat → digest → List Nat → digest
  | _, s, [] => s
  | t, s, w :: ws => rounds (t + 1) (round t s w) ws

/-- The compression of one 64-byte block into the hash state. -/
def block (h : digest) (p : List Nat) : digest :=
  let s := rounds 0 h (extend 64 (words p))
  ⟨mask32 (h.h0 + s.h0), mask32 (h.h1 + s.h1), mask32 (h.h2 + s.h2),
    mask32 (h.h3 + s.h3), mask32 (h.h4 + s.h4)⟩

/-- The compression of the first `n` blocks of the padded message. -/
def blocks : Nat → digest → List Nat → digest
  | 0, h, _ => h
  | n + 1, h, p => blocks n (block h (p.take 64)) (p.drop 64)

/-- The four bytes of a word, most significant first. -/
def bytes (x : Nat) : List Nat := [x >>> 24 % 256, x >>> 16 % 256, x >>> 8 % 256, x % 256]

/-- The function `sha1.Sum`: the 20-byte SHA-1 digest of a byte string. -/
def Sum (data : List Nat) : List Nat :=
  let p := data ++ padding data.length
  let d := blocks (p.length / 64) init p
  bytes d.h0 ++ bytes d.h1 ++ bytes d.h2 ++ bytes d.h3 ++ bytes d.h4

end sha1

namespace fmt

/-- The lowercase hexadecimal digit of a number below 16. -/
def hexDigit (n : Nat) : Char :=
  match n with
  | 0 => '0' | 1 => '1' | 2 => '2' | 3 => '3' | 4 => '4' | 5 => '5' | 6 => '6' | 7 => '7'
  | 8 => '8' | 9 => '9' | 10 => 'a' | 11 => 'b' | 12 => 'c' | 13 => 'd' | 14 => 'e' | _ => 'f'

/-- The call `fmt.Sprintf("%x", b)` on a byte slice: two lowercase hexadecimal
digits per byte. -/
def hex : List Nat → List Char
  | [] => []
  | b :: bs => hexDigit (b / 16 % 16) :: hexDigit (b % 16) :: hex bs

end fmt

/-- The conversion `[]byte(s)`: the bytes of the UTF-8 encoding of a string. -/
def bytesOf (s : String) : List Nat := s.toUTF8.data.toList.map UInt8.toNat

/-! ## Task configuration sources, actions and steps (package `exec`) -/

namespace exec

/-- The values of the interface `TaskConfigSource` that the factory builds:
the nil interface value (the zero value of `var taskConfigSource`) and the
struct literals `StaticConfigSource`, `FileConfigSource`, `MergedConfigSource`,
`ValidatingConfigSource` and `DeprecationConfigSource`, with their fields. -/
inductive TaskConfigSource where
  | nil : TaskConfigSource
  | StaticConfigSource (Plan : atc.TaskPlan) : TaskConfigSource
  | FileConfigSource (Path : String) : TaskConfigSource
  | MergedConfigSource (A B : TaskConfigSource) : TaskConfigSource
  | ValidatingConfigSource (ConfigSource : TaskConfigSource) : TaskConfigSource
  | DeprecationConfigSource (Delegate : TaskConfigSource) (Stderr : Handle) : TaskConfigSource
deriving DecidableEq, Repr

/-- The interface `BuildStepDelegate`: the delegate itself and the writer that
its method `Stderr()` returns. -/
structure BuildStepDelegate where
  ref : Handle
  Stderr : Handle
deriving DecidableEq, Repr

/-- The struct `StepMetadata`, which the factory only passes along. -/
abbrev StepMetadata := List (String × String)

/-- The struct `GetAction` with the fields that `Get` sets; `VS` is the type of
version sources. -/
structure GetAction (VS : Type) where
  Type_ : String
  Name : String
  Resource : String
  Source : creds.Source
  Params : creds.Params
  VersionSource : VS
  Tags : atc.Tags
  Outputs : List String
  buildStepDelegate : BuildStepDelegate
  resourceFetcher : Handle
  teamID : Int
  buildID : Int
  planID : atc.PlanID
  containerMetadata : db.ContainerMetadata
  dbResourceCacheFactory : Handle
  stepMetadata : StepMetadata
  resourceTypes : creds.VersionedResourceTypes

/-- The struct `PutAction` with the fields that `Put` sets. -/
structure PutAction where
  Type_ : String
  Name : String
  Resource : String
  Source : creds.Source
  Params : creds.Params
  Tags : atc.Tags
  buildStepDelegate : BuildStepDelegate
  resourceFactory : Handle
  teamID : Int
  buildID : Int
  planID : atc.PlanID
  containerMetadata : db.ContainerMetadata
  stepMetadata : StepMetadata
  resourceTypes : creds.VersionedResourceTypes
deriving DecidableEq, Repr

/-- The struct `TaskAction` with the fields that `Task` sets. -/
structure TaskAction where
  privileged : Bool
  configSource : TaskConfigSource
  tags : atc.Tags
  inputMapping : List (String × String)
  outputMapping : List (String × String)
  artifactsRoot : String
  imageArtifactName : String
  buildEventsDelegate : Handle
  buildStepDelegate : BuildStepDelegate
  workerPool : Handle
  teamID : Int
  buildID : Int
  jobID : Int
  stepName : String
  planID : atc.PlanID
  containerMetadata : db.ContainerMetadata
  resourceTypes : creds.VersionedResourceTypes
  variables_ : creds.Variables
deriving DecidableEq, Repr

/-- An action object in the heap: what a pointer of interface type `Action`
points to. -/
inductive Object (VS : Type) where
  | getAction (a : GetAction VS) : Object VS
  | putAction (a : PutAction) : Object VS
  | taskAction (a : TaskAction) : Object VS

/-- The heap of action objects; an address is a position in it. -/
abbrev Heap (VS : Type) := List (Object VS)

/-- Allocation `&T{...}`: the object is stored at a fresh address, the next free
position, and nothing already allocated moves. -/
def Heap.alloc {VS : Type} (heap : Heap VS) (o : Object VS) : Ptr × Heap VS :=
  (heap.length, heap ++ [o])

/-- The publish action stored at an address, if one is. -/
def Heap.putActionAt {VS : Type} (heap : Heap VS) (p : Ptr) : Option PutAction :=
  match heap[p]? with
  | some (Object.putAction a) => some a
  | _ => none

/-- The fetch action stored at an address, if one is. -/
def Heap.getActionAt {VS : Type} (heap : Heap VS) (p : Ptr) : Option (GetAction VS) :=
  match heap[p]? with
  | some (Object.getAction a) => some a
  | _ => none

/-- The task action stored at an address, if one is. -/
def Heap.taskActionAt {VS : Type} (heap : Heap VS) (p : Ptr) : Option TaskAction :=
  match heap[p]? with
  | some (Object.taskAction a) => some a
  | _ => none

/-- Modelled from the spec: `NewActionsStep` and its step type are not among the
sources. A step is the thin wrapper around the actions it was given, the logger
and the events delegate; `actions` holds the addresses of the actions. -/
structure Step where
  logger : Handle
  actions : List Ptr
  buildEventsDelegate : Handle
deriving DecidableEq, Repr

/-- Modelled from the spec: the constructor `NewActionsStep`, which wraps its
arguments. -/
def NewActionsStep (logger : Handle) (actions : List Ptr) (buildEventsDelegate : Handle) : Step :=
  { logger := logger, actions := actions, buildEventsDelegate := buildEventsDelegate }

/-- The functions of this code base that the factory calls and whose code is
not among the sources, taken as parameters: `resource.ResourcesDir` and
`NewVersionSourceFromPlan`, the latter receiving exactly what `Get` passes to
it, the get part of the plan and the registry. -/
structure External (VS : Type) where
  ResourcesDir : String → String
  NewVersionSourceFromPlan : atc.GetPlan → List (atc.PlanID × Ptr) → VS

/-- The struct `gardenFactory`: the collaborators and the registry
`putActions` of the publish actions built so far, by plan ID. -/
structure gardenFactory where
  workerClient : Handle
  resourceFetcher : Handle
  resourceFactory : Handle
  dbResourceCacheFactory : Handle
  variablesFactory : Handle
  putActions : List (atc.PlanID × Ptr)
deriving DecidableEq, Repr

/-- The constructor `NewGardenFactory`: the registry starts empty. -/
def NewGardenFactory (workerClient resourceFetcher resourceFactory dbResourceCacheFactory
    variablesFactory : Handle) : gardenFactory :=
  { workerClient := workerClient
    resourceFetcher := resourceFetcher
    resourceFactory := resourceFactory
    dbResourceCacheFactory := dbResourceCacheFactory
    variablesFactory := variablesFactory
    putActions := [] }

/-- The call `factory.variablesFactory.NewVariables(team, pipeline)`. -/
def gardenFactory.NewVariables (factory : gardenFactory) (teamName pipelineName : String) :
    creds.Variables :=
  { variablesFactory := factory.variablesFactory, teamName := teamName, pipelineName := pipelineName }

/-- The method `taskWorkingDirectory`: the build scratch root joined with the
hexadecimal form of the first four bytes of the SHA-1 digest of the name. -/
def gardenFactory.taskWorkingDirectory (_factory : gardenFactory) (sourceName : String) : String :=
  let sum := sha1.Sum (bytesOf sourceName)
  filepath.Join ["/tmp", "build", String.mk (fmt.hex (sum.take 4))]

/-- The method `Get`. It fails (`none`) only by dereferencing a nil `plan.Get`.
Otherwise it allocates the fetch action and returns the step around it, the
factory, whose registry it only reads, and the new heap. -/
def gardenFactory.Get {VS : Type} (ext : External VS) (factory : gardenFactory) (heap : Heap VS)
    (logger : Handle) (plan : atc.Plan) (build : db.Build) (stepMetadata : StepMetadata)
    (workerMetadata : db.ContainerMetadata) (buildEventsDelegate : Handle)
    (buildStepDelegate : BuildStepDelegate) : Option (Step × gardenFactory × Heap VS) :=
  match plan.Get with
  | none => none
  | some get =>
    let workerMetadata := { workerMetadata with WorkingDirectory := ext.ResourcesDir "get" }
    let variables_ := factory.NewVariables build.TeamName build.PipelineName
    let getAction : GetAction VS :=
      { Type_ := get.Type_
        Name := get.Name
        Resource := get.Resource
        Source := { variables_ := variables_, raw := get.Source }
        Params := { variables_ := variables_, raw := get.Params }
        VersionSource := ext.NewVersionSourceFromPlan get factory.putActions
        Tags := get.Tags
        Outputs := [get.Name]
        buildStepDelegate := buildStepDelegate
        resourceFetcher := factory.resourceFetcher
        teamID := build.TeamID
        buildID := build.ID
        planID := plan.ID
        containerMetadata := workerMetadata
        dbResourceCacheFactory := factory.dbResourceCacheFactory
        stepMetadata := stepMetadata
        resourceTypes := { variables_ := variables_, raw := get.VersionedResourceTypes } }
    let (ptr, heap) := heap.alloc (Object.getAction getAction)
    let actions := [ptr]
    some (NewActionsStep logger actions buildEventsDelegate, factory, heap)

/-- The method `Put`. It fails (`none`) only by dereferencing a nil `plan.Put`.
Otherwise it allocates the publish action, stores its address in the registry
under `plan.ID`, and returns the step around it. -/
def gardenFactory.Put {VS : Type} (ext : External VS) (factory : gardenFactory) (heap : Heap VS)
    (logger : Handle) (plan : atc.Plan) (build : db.Build) (stepMetadata : StepMetadata)
    (workerMetadata : db.ContainerMetadata) (buildEventsDelegate : Handle)
    (buildStepDelegate : BuildStepDelegate) : Option (Step × gardenFactory × Heap VS) :=
  match plan.Put with
  | none => none
  | some put =>
    let workerMetadata := { workerMetadata with WorkingDirectory := ext.ResourcesDir "put" }
    let variables_ := factory.NewVariables build.TeamName build.PipelineName
    let putAction : PutAction :=
      { Type_ := put.Type_
        Name := put.Name
        Resource := put.Resource
        Source := { variables_ := variables_, raw := put.Source }
        Params := { variables_ := variables_, raw := put.Params }
        Tags := put.Tags
        buildStepDelegate := buildStepDelegate
        resourceFactory := factory.resourceFactory
        teamID := build.TeamID
        buildID := build.ID
        planID := plan.ID
        containerMetadata := workerMetadata
        stepMetadata := stepMetadata
        resourceTypes := { variables_ := variables_, raw := put.VersionedResourceTypes } }
    let (ptr, heap) := heap.alloc (Object.putAction putAction)
    let factory := { factory with putActions := GoMap.insert plan.ID ptr factory.putActions }
    let actions := [ptr]
    some (NewActionsStep logger actions buildEventsDelegate, factory, heap)

/-- The choice of configuration source in `Task`, before the wrappers: the
`if` / `else if` chain over the config path, the inline config and the step
params; when no branch applies the variable keeps its nil zero value. -/
def taskConfigSourceOf (task : atc.TaskPlan) : TaskConfigSource :=
  if task.ConfigPath ≠ "" ∧ (task.Config ≠ none ∨ task.Params ≠ none) then
    TaskConfigSource.MergedConfigSource
      (TaskConfigSource.FileConfigSource task.ConfigPath)
      (TaskConfigSource.StaticConfigSource task)
  else if task.Config ≠ none then
    TaskConfigSource.StaticConfigSource task
  else if task.ConfigPath ≠ "" then
    TaskConfigSource.FileConfigSource task.ConfigPath
  else
    TaskConfigSource.nil

/-- The method `Task`. It fails (`none`) only by dereferencing a nil
`plan.Task`. Otherwise it allocates the task action, whose configuration source
is the chosen source inside the validating and the deprecation wrappers, and
returns the step around it; the registry is not touched. -/
def gardenFactory.Task {VS : Type} (_ext : External VS) (factory : gardenFactory) (heap : Heap VS)
    (logger : Handle) (plan : atc.Plan) (build : db.Build)
    (containerMetadata : db.ContainerMetadata) (taskBuildEventsDelegate : Handle)
    (buildEventsDelegate : Handle) (buildStepDelegate : BuildStepDelegate) :
    Option (Step × gardenFactory × Heap VS) :=
  match plan.Task with
  | none => none
  | some task =>
    let workingDirectory := factory.taskWorkingDirectory task.Name
    let containerMetadata := { containerMetadata with WorkingDirectory := workingDirectory }
    let taskConfigSource := taskConfigSourceOf task
    let taskConfigSource := TaskConfigSource.ValidatingConfigSource taskConfigSource
    let taskConfigSource :=
      TaskConfigSource.DeprecationConfigSource taskConfigSource buildStepDelegate.Stderr
    let variables_ := factory.NewVariables build.TeamName build.PipelineName
    let taskAction : TaskAction :=
      { privileged := task.Privileged
        configSource := taskConfigSource
        tags := task.Tags
        inputMapping := task.InputMapping
        outputMapping := task.OutputMapping
        artifactsRoot := workingDirectory
        imageArtifactName := task.ImageArtifactName
        buildEventsDelegate := taskBuildEventsDelegate
        buildStepDelegate := buildStepDelegate
        workerPool := factory.workerClient
        teamID := build.TeamID
        buildID := build.ID
        jobID := build.JobID
        stepName := task.Name
        planID := plan.ID
        containerMetadata := containerMetadata
        resourceTypes := { variables_ := variables_, raw := task.VersionedResourceTypes }
        variables_ := variables_ }
    let (ptr, heap) := heap.alloc (Object.taskAction taskAction)
    let actions := [ptr]
    some (NewActionsStep logger actions buildEventsDelegate, factory, heap)

/-! ### Sequences of constructions on one factory -/

/-- One construction call on the factory, with its arguments. -/
inductive Call where
  | Get (logger : Handle) (plan : atc.Plan) (build : db.Build) (stepMetadata : StepMetadata)
      (workerMetadata : db.ContainerMetadata) (buildEventsDelegate : Handle)
      (buildStepDelegate : BuildStepDelegate) : Call
  | Put (logger : Handle) (plan : atc.Plan) (build : db.Build) (stepMetadata : StepMetadata)
      (workerMetadata : db.ContainerMetadata) (buildEventsDelegate : Handle)
      (buildStepDelegate : BuildStepDelegate) : Call
  | Task (logger : Handle) (plan : atc.Plan) (build : db.Build)
      (containerMetadata : db.ContainerMetadata) (taskBuildEventsDelegate : Handle)
      (buildEventsDelegate : Handle) (buildStepDelegate : BuildStepDelegate) : Call
deriving DecidableEq, Repr

/-- The plan ID under which a call registers a publish action: that of its plan
for a `Put`, none for the other calls. -/
def Call.putID : Call → Option atc.PlanID
  | Call.Put _ plan _ _ _ _ _ => some plan.ID
  | _ => none

/-- Performs one call on the factory and the heap. -/
def Call.run {VS : Type} (ext : External VS) (factory : gardenFactory) (heap : Heap VS) :
    Call → Option (Step × gardenFactory × Heap VS)
  | Call.Get logger plan build stepMetadata workerMetadata buildEventsDelegate buildStepDelegate =>
    factory.Get ext heap logger plan build stepMetadata workerMetadata buildEventsDelegate
      buildStepDelegate
  | Call.Put logger plan build stepMetadata workerMetadata buildEventsDelegate buildStepDelegate =>
    factory.Put ext heap logger plan build stepMetadata workerMetadata buildEventsDelegate
      buildStepDelegate
  | Call.Task logger plan build containerMetadata taskBuildEventsDelegate buildEventsDelegate
      buildStepDelegate =>
    factory.Task ext heap logger plan build containerMetadata taskBuildEventsDelegate
      buildEventsDelegate buildStepDelegate

/-- Performs the calls in order, each on the factory and heap left by the one
before; the result holds the steps returned, in order. A call that fails makes
the whole sequence fail. -/
def runCalls {VS : Type} (ext : External VS) :
    List Call → gardenFactory → Heap VS → Option (List Step × gardenFactory × Heap VS)
  | [], factory, heap => some ([], factory, heap)
  | c :: cs, factory, heap =>
    match c.run ext factory heap with
    | none => none
    | some (step, factory, heap) =>
      match runCalls ext cs factory heap with
      | none => none
      | some (steps, factory, heap) => some (step :: steps, factory, heap)

/-- The address of the action in the step returned by the most recent `Put` call
under the plan ID `id`, given the calls and the steps they returned; `none`
when no `Put` call used that ID. -/
def lastPut (id : atc.PlanID) : List Call → List Step → Option Ptr
  | c :: cs, step :: steps =>
    match lastPut id cs steps with
    | some p => some p
    | none => if c.putID = some id then step.actions.head? else none
  | _, _ => none

/-! ### Resolution of a task configuration source -/

/-- Modelled from the spec: what resolution is given from outside, namely the
container filesystem view (reading and parsing the file at a path), the test
for structurally malformed inputs or outputs, and the obsolete field spellings
with their current names. -/
structure Resolution where
  readFile : String → Except String atc.TaskConfig
  malformed : atc.TaskConfig → Bool
  obsolete : List (String × String)

/-- Modelled from the spec: the merge of two configurations, "B taking
precedence over A on any overlapping field; fields present only in A are
kept". -/
def mergeConfig (a b : atc.TaskConfig) : atc.TaskConfig :=
  b ++ a.filter (fun e => (GoMap.lookup e.1 b).isNone)

/-- Modelled from the spec: the deprecation shim rewrites every obsolete field
spelling to the current field name and changes nothing else. -/
def rewriteDeprecated (obsolete : List (String × String)) (c : atc.TaskConfig) : atc.TaskConfig :=
  c.map (fun e => ((GoMap.lookup e.1 obsolete).getD e.1, e.2))

/-- Modelled from the spec: one warning line per field with an obsolete
spelling. -/
def deprecationWarnings (obsolete : List (String × String)) (c : atc.TaskConfig) : List String :=
  (c.filter (fun e => (GoMap.lookup e.1 obsolete).isSome)).map
    (fun e => "deprecated field: " ++ e.1)

/-- Modelled from the spec: the method `FetchConfig` of the configuration
sources is not among the sources. Following the composition rules: a merged
source merges its two sides with B over A; a static source gives the inline
config; a file source reads the file; with neither ("no configuration found")
resolution fails with "missing task config"; the validator fails with "invalid
task config" when the command is absent or inputs/outputs are malformed; the
deprecation shim rewrites and warns but never fails. The result comes with the
lines written to the diagnostic stream. -/
def FetchConfig (r : Resolution) : TaskConfigSource → Except String atc.TaskConfig × List String
  | TaskConfigSource.nil => (Except.error "missing task config", [])
  | TaskConfigSource.StaticConfigSource plan => (Except.ok (plan.Config.getD []), [])
  | TaskConfigSource.FileConfigSource path => (r.readFile path, [])
  | TaskConfigSource.MergedConfigSource A B =>
    match FetchConfig r A with
    | (Except.error e, out) => (Except.error e, out)
    | (Except.ok a, out) =>
      match FetchConfig r B with
      | (Except.error e, out2) => (Except.error e, out ++ out2)
      | (Except.ok b, out2) => (Except.ok (mergeConfig a b), out ++ out2)
  | TaskConfigSource.ValidatingConfigSource source =>
    match FetchConfig r source with
    | (Except.error e, out) => (Except.error e, out)
    | (Except.ok c, out) =>
      if (GoMap.lookup "command" c).isNone || r.malformed c then
        (Except.error "invalid task config", out)
      else (Except.ok c, out)
  | TaskConfigSource.DeprecationConfigSource delegate _ =>
    match FetchConfig r delegate with
    | (Except.error e, out) => (Except.error e, out)
    | (Except.ok c, out) =>
      (Except.ok (rewriteDeprecated r.obsolete c), out ++ deprecationWarnings r.obsolete c)

end exec

/-! ## The pipeline listing handler (package `pipelineserver`) -/

namespace pipelineserver

/-- A pipeline record of the store, kept abstract. -/
abbrev Pipeline := String

/-- A Go `error` value; nil is `none`. -/
abbrev Error := Option String

/-- The interface `dbng.Team`, by the result of the one method called on it. -/
structure Team where
  VisiblePipelines : List Pipeline × Error

/-- The parts of `Server` that the handler uses: the team factory's
`FindTeam`, returning the team (nil is `none`), the found flag and the error,
and the pipeline factory's `PublicPipelines`. -/
structure Server where
  FindTeam : String → Option Team × Bool × Error
  PublicPipelines : List Pipeline × Error

/-- The request, by the result of `auth.GetTeam`: the name of the authenticated
team when one was found. -/
structure Request where
  authTeam : Option String

/-- The response as the handler leaves it: the status code, if one was written
(explicitly by `WriteHeader`, or 200 implicitly by the first write of the
body), the headers set, the body written, and the lines logged. -/
structure Response where
  status : Option Nat
  header : List (String × String)
  body : String
  log : List String
deriving DecidableEq, Repr

/-- The untouched response writer. -/
def Response.empty : Response := { status := none, header := [], body := "", log := [] }

/-- The call `w.WriteHeader(code)`. -/
def Response.WriteHeader (w : Response) (code : Nat) : Response :=
  { w with status := some (w.status.getD code) }

/-- The call `w.Write(data)`: the header goes out with status 200 if none was
written before. -/
def Response.Write (w : Response) (data : String) : Response :=
  { w with status := some (w.status.getD 200), body := w.body ++ data }

/-- The status code `http.StatusInternalServerError`. -/
def StatusInternalServerError : Nat := 500

/-- The status code `http.StatusNotFound`. -/
def StatusNotFound : Nat := 404

/-- The end of the handler, from the test of the outer `err` on: with an error
the failure is logged and status 500 written; otherwise the content type is set
and the presented pipelines are encoded into the body. `encode` stands for
`present.Pipelines` followed by the JSON encoder. -/
def respond (encode : List Pipeline → String) (w : Response) (pipelines : List Pipeline)
    (err : Error) : Response :=
  if err ≠ none then
    { w with log := w.log ++ ["failed-to-get-all-active-pipelines"] }.WriteHeader
      StatusInternalServerError
  else
    { w with header := w.header ++ [("Content-Type", "application/json")] }.Write
      (encode pipelines)

/-- The handler `ListAllPipelines`. The outer variables `pipelines` and `err`
start nil. In the authenticated branch `team, found, err := FindTeam(...)`
declares a new `err` local to that branch, so `pipelines, err =
team.VisiblePipelines()` assigns the outer `pipelines` and the branch-local
`err`; the outer `err` stays nil. In the other branch `pipelines, err =
PublicPipelines()` assigns both outer variables. Calling `VisiblePipelines` on a
nil team is a nil dereference (`none`). -/
def ListAllPipelines (encode : List Pipeline → String) (s : Server) (w : Response)
    (r : Request) : Option Response :=
  let err : Error := none
  match r.authTeam with
  | some authTeamName =>
    match s.FindTeam authTeamName with
    | (team, found, err1) =>
      if err1 ≠ none then
        some ({ w with log := w.log ++ ["failed-to-get-team"] }.WriteHeader
          StatusInternalServerError)
      else if !found then
        some ({ w with log := w.log ++ ["team-not-found"] }.WriteHeader StatusNotFound)
      else
        match team with
        | none => none
        | some team =>
          match team.VisiblePipelines with
          | (pipelines, _err1) => some (respond encode w pipelines err)
  | none =>
    match s.PublicPipelines with
    | (pipelines, err) => some (respond encode w pipelines err)

end pipelineserver

/-! ## Sample inputs -/

namespace Sample

open exec

/-- A version source type for the samples: the address deferred to, if any. -/
abbrev VS := Option Ptr

/-- Sample externals: the helper looks the registry up under the plan ID that
the get part names in its `version_from` entry. -/
def ext : External VS :=
  { ResourcesDir := fun suffix => "/tmp/build/" ++ suffix
    NewVersionSourceFromPlan := fun get putActions =>
      match GoMap.lookup "version_from" get.rest with
      | none => none
      | some id => GoMap.lookup id putActions }

/-- A sample factory with an empty registry. -/
def factory : gardenFactory := NewGardenFactory 1 2 3 4 5

/-- A sample build. -/
def build : db.Build :=
  { ID := 42, TeamID := 7, TeamName := "main", PipelineName := "ci", JobID := 3 }

/-- Sample container metadata. -/
def metadata : db.ContainerMetadata := { WorkingDirectory := "", rest := [] }

/-- A sample build step delegate. -/
def delegate : BuildStepDelegate := { ref := 8, Stderr := 9 }

/-- A sample get part. -/
def getPart : atc.GetPlan :=
  { Type_ := "git", Name := "release", Resource := "release", Source := [], Params := [],
    Tags := [], VersionedResourceTypes := [], rest := [] }

/-- A sample fetch node with ID `a`. -/
def getPlanA : atc.Plan := { ID := "a", Get := some getPart, Put := none, Task := none }

/-- The same fetch node under the ID `b`. -/
def getPlanB : atc.Plan := { ID := "b", Get := some getPart, Put := none, Task := none }

/-- A sample put part. -/
def putPart : atc.PutPlan :=
  { Type_ := "git", Name := "release", Resource := "release", Source := [], Params := [],
    Tags := [], VersionedResourceTypes := [] }

/-- A sample publish node with ID `a`. -/
def putPlanA : atc.Plan := { ID := "a", Get := none, Put := some putPart, Task := none }

/-- A sample publish node with ID `b`. -/
def putPlanB : atc.Plan := { ID := "b", Get := none, Put := some putPart, Task := none }

/-- A registry holding one entry, under the ID `a`. -/
def factoryA : gardenFactory := { factory with putActions := [("a", 0)] }

/-- A heap holding one publish action, at address 0. -/
def heapA : Heap VS :=
  [Object.putAction
    { Type_ := "git", Name := "release", Resource := "release"
      Source := { variables_ := factory.NewVariables "main" "ci", raw := [] }
      Params := { variables_ := factory.NewVariables "main" "ci", raw := [] }
      Tags := [], buildStepDelegate := delegate, resourceFactory := 3, teamID := 7, buildID := 42
      planID := "a", containerMetadata := metadata, stepMetadata := []
      resourceTypes := { variables_ := factory.NewVariables "main" "ci", raw := [] } }]

/-- A sample task part: a config path, step params, no inline config. -/
def taskParamsOnly : atc.TaskPlan :=
  { Name := "unit", Privileged := false, Tags := [], ConfigPath := "ci/task.yml", Config := none,
    Params := some [("KEY", "value")], InputMapping := [], OutputMapping := [],
    ImageArtifactName := "", VersionedResourceTypes := [] }

/-- A sample task part: a config path only. -/
def taskFileOnly : atc.TaskPlan := { taskParamsOnly with Params := none }

/-- A sample task part: neither a config path nor an inline config. -/
def taskNeither : atc.TaskPlan := { taskParamsOnly with ConfigPath := "", Params := none }

/-- A sample task part: an inline config and a config path. -/
def taskBoth : atc.TaskPlan :=
  { taskParamsOnly with Config := some [("command", "run.sh")], Params := none }

/-- The task node around a task part. -/
def taskPlan (task : atc.TaskPlan) : atc.Plan :=
  { ID := "t", Get := none, Put := none, Task := some task }

/-- A sample sequence of calls: two publishes under `a` around a fetch and a
publish under `b`. -/
def calls : List Call :=
  [Call.Put 0 putPlanA build [] metadata 6 delegate,
   Call.Get 0 getPlanA build [] metadata 6 delegate,
   Call.Put 0 putPlanB build [] metadata 6 delegate,
   Call.Put 0 putPlanA build [] metadata 6 delegate]

/-- What the sample calls leave when run on the fresh sample factory and an
empty heap: the steps returned, the factory and the heap. -/
def outcome : List Step × gardenFactory × Heap VS :=
  (runCalls ext calls factory []).getD ([], factory, [])

/-- A server whose team lookup finds the team and whose team fails to list its
visible pipelines; the public listing works. -/
def failingTeamServer : pipelineserver.Server :=
  { FindTeam := fun _ => (some { VisiblePipelines := ([], some "connection refused") }, true, none)
    PublicPipelines := (["public-pipeline"], none) }

/-- A sample encoder of the pipeline list. -/
def encode (pipelines : List pipelineserver.Pipeline) : String :=
  "[" ++ ",".intercalate pipelines ++ "]"

end Sample

/-! # Properties -/

/-! ## Go maps -/

namespace GoMap

theorem lookup_filter_ne {β : Type} (k k' : String) (m : List (String × β)) (h : k' ≠ k) :
    lookup k' (m.filter (fun e => !(e.1 == k))) = lookup k' m := by
  induction m with
  | nil => rfl
  | cons e m ih =>
    obtain ⟨a, v⟩ := e
    by_cases hak : a = k
    · subst hak
      simp [List.filter_cons, lookup, h, ih]
    · simp [List.filter_cons, lookup, hak, ih]

theorem lookup_insert {β : Type} (k k' : String) (v : β) (m : List (String × β)) :
    lookup k' (insert k v m) = if k' = k then some v else lookup k' m := by
  by_cases h : k' = k
  · simp [insert, lookup, h]
  · simp [insert, lookup, h, lookup_filter_ne k k' m h]

end GoMap

/-! ## The heap -/

namespace exec

theorem Heap.getActionAt_alloc {VS : Type} (heap : Heap VS) (a : GetAction VS) :
    Heap.getActionAt (heap ++ [Object.getAction a]) heap.length = some a := by
  simp [Heap.getActionAt]

theorem Heap.putActionAt_alloc {VS : Type} (heap : Heap VS) (a : PutAction) :
    Heap.putActionAt (heap ++ [Object.putAction a]) heap.length = some a := by
  simp [Heap.putActionAt]

theorem Heap.taskActionAt_alloc {VS : Type} (heap : Heap VS) (a : TaskAction) :
    Heap.taskActionAt (heap ++ [Object.taskAction a]) heap.length = some a := by
  simp [Heap.taskActionAt]

theorem Heap.putActionAt_append {VS : Type} (heap : Heap VS) (o : Object VS) (p : Ptr)
    (a : PutAction) (h : heap.putActionAt p = some a) :
    Heap.putActionAt (heap ++ [o]) p = some a := by
  unfold Heap.putActionAt at h ⊢
  by_cases hp : p < heap.length
  · rw [List.getElem?_append_left hp]
    exact h
  · rw [List.getElem?_eq_none (Nat.le_of_not_lt hp)] at h
    simp at h

end exec

/-! ## The factory methods -/

namespace exec

/-- What `Get` returns for a fetch plan node: a step around one freshly
allocated fetch action, the factory unchanged, and in the action the version
source that `NewVersionSourceFromPlan` gives for the get part and the
registry. -/
theorem Get_result {VS : Type} (ext : External VS) (factory : gardenFactory)
    (heap : Heap VS) (logger : Handle) (plan : atc.Plan) (get : atc.GetPlan) (build : db.Build)
    (stepMetadata : StepMetadata) (workerMetadata : db.ContainerMetadata)
    (buildEventsDelegate : Handle) (buildStepDelegate : BuildStepDelegate)
    (h : plan.Get = some get) :
    ∃ (step : Step) (heap1 : Heap VS) (a : GetAction VS),
      factory.Get ext heap logger plan build stepMetadata workerMetadata buildEventsDelegate
          buildStepDelegate = some (step, factory, heap1) ∧
        step.actions = [heap.length] ∧
        heap1.getActionAt heap.length = some a ∧
        a.VersionSource = ext.NewVersionSourceFromPlan get factory.putActions ∧
        a.planID = plan.ID ∧
        a.Outputs = [get.Name] := by
  obtain ⟨planID, planGet, planPut, planTask⟩ := plan
  simp only at h
  subst h
  exact ⟨_, _, _, rfl, rfl, Heap.getActionAt_alloc heap _, rfl, rfl, rfl⟩

/-- C1 (amended). For every fetch plan node and every registry state, `Get`
returns a step around one freshly allocated fetch action and leaves the registry
as it was; the version source of that action is what
`NewVersionSourceFromPlan` gives for the get part of the node and the registry.
The node's own plan ID is only stored as the action's `planID`: the same get
part under any other plan ID gets the same version source. -/
theorem Get_versionSource_from_getPlan {VS : Type} (ext : External VS) (factory : gardenFactory)
    (heap : Heap VS) (logger : Handle) (plan : atc.Plan) (get : atc.GetPlan) (build : db.Build)
    (stepMetadata : StepMetadata) (workerMetadata : db.ContainerMetadata)
    (buildEventsDelegate : Handle) (buildStepDelegate : BuildStepDelegate)
    (h : plan.Get = some get) :
    ∃ (step : Step) (heap1 : Heap VS) (a : GetAction VS),
      factory.Get ext heap logger plan build stepMetadata workerMetadata buildEventsDelegate
          buildStepDelegate = some (step, factory, heap1) ∧
        step.actions = [heap.length] ∧
        heap1.getActionAt heap.length = some a ∧
        a.VersionSource = ext.NewVersionSourceFromPlan get factory.putActions ∧
        a.planID = plan.ID ∧
        a.Outputs = [get.Name] ∧
        ∀ id : atc.PlanID, ∃ (step2 : Step) (heap2 : Heap VS) (a2 : GetAction VS),
          factory.Get ext heap logger { plan with ID := id } build stepMetadata workerMetadata
              buildEventsDelegate buildStepDelegate = some (step2, factory, heap2) ∧
            heap2.getActionAt heap.length = some a2 ∧
            a2.planID = id ∧
            a2.VersionSource = a.VersionSource := by
  obtain ⟨planID, planGet, planPut, planTask⟩ := plan
  simp only at h
  subst h
  exact ⟨_, _, _, rfl, rfl, Heap.getActionAt_alloc heap _, rfl, rfl, rfl,
    fun _ => ⟨_, _, _, rfl, Heap.getActionAt_alloc heap _, rfl, rfl⟩⟩

/-- Witness: the sample fetch node `a` on the
registry that holds an entry under `a`. -/
theorem Get_versionSource_from_getPlan_witness :
    Sample.getPlanA.Get = some Sample.getPart ∧
    ∃ (step : Step) (heap1 : Heap Sample.VS) (a : GetAction Sample.VS),
      Sample.factoryA.Get Sample.ext Sample.heapA 0 Sample.getPlanA Sample.build []
          Sample.metadata 6 Sample.delegate = some (step, Sample.factoryA, heap1) ∧
        step.actions = [Sample.heapA.length] ∧
        heap1.getActionAt Sample.heapA.length = some a ∧
        a.VersionSource =
          Sample.ext.NewVersionSourceFromPlan Sample.getPart Sample.factoryA.putActions ∧
        a.planID = Sample.getPlanA.ID ∧
        a.Outputs = [Sample.getPart.Name] ∧
        ∀ id : atc.PlanID, ∃ (step2 : Step) (heap2 : Heap Sample.VS) (a2 : GetAction Sample.VS),
          Sample.factoryA.Get Sample.ext Sample.heapA 0 { Sample.getPlanA with ID := id }
              Sample.build [] Sample.metadata 6 Sample.delegate =
              some (step2, Sample.factoryA, heap2) ∧
            heap2.getActionAt Sample.heapA.length = some a2 ∧
            a2.planID = id ∧
            a2.VersionSource = a.VersionSource :=
  ⟨rfl, Get_versionSource_from_getPlan Sample.ext Sample.factoryA Sample.heapA 0 Sample.getPlanA
    Sample.getPart Sample.build [] Sample.metadata 6 Sample.delegate rfl⟩

/-- C1 (counterexample). The claim as stated fails whatever
`NewVersionSourceFromPlan` is and however "defers to" is read off a version
source (`defersTo vs` is the registry entry that `vs` defers to, `none` for an
independent lookup): the sample fetch nodes `a` and `b` have the same get part,
the registry holds an entry under `a` only, so `Get` gives both the same
version source, while the claim wants the first to defer to the entry and the
second to be independent. -/
theorem Get_versionSource_own_planID_counterexample :
    ¬ ∃ (VS : Type) (ext : External VS) (defersTo : VS → Option Ptr),
      ∀ (factory : gardenFactory) (heap : Heap VS) (plan : atc.Plan) (get : atc.GetPlan),
        plan.Get = some get →
        ∃ (step : Step) (factory1 : gardenFactory) (heap1 : Heap VS) (a : GetAction VS),
          factory.Get ext heap 0 plan Sample.build [] Sample.metadata 6 Sample.delegate =
              some (step, factory1, heap1) ∧
            heap1.getActionAt heap.length = some a ∧
            defersTo a.VersionSource = GoMap.lookup plan.ID factory.putActions := by
  rintro ⟨VS, ext, defersTo, hclaim⟩
  obtain ⟨sA, fA, hA, aA, hrunA, hatA, hdefA⟩ :=
    hclaim Sample.factoryA [] Sample.getPlanA Sample.getPart rfl
  obtain ⟨sB, fB, hB, aB, hrunB, hatB, hdefB⟩ :=
    hclaim Sample.factoryA [] Sample.getPlanB Sample.getPart rfl
  obtain ⟨s1, h1, a1, hrun1, -, hat1, hvs1, -, -⟩ :=
    Get_result ext Sample.factoryA [] 0 Sample.getPlanA Sample.getPart
      Sample.build [] Sample.metadata 6 Sample.delegate rfl
  obtain ⟨s2, h2, a2, hrun2, -, hat2, hvs2, -, -⟩ :=
    Get_result ext Sample.factoryA [] 0 Sample.getPlanB Sample.getPart
      Sample.build [] Sample.metadata 6 Sample.delegate rfl
  rw [hrun1] at hrunA
  rw [hrun2] at hrunB
  simp only [Option.some.injEq, Prod.mk.injEq] at hrunA hrunB
  obtain ⟨-, -, rfl⟩ := hrunA
  obtain ⟨-, -, rfl⟩ := hrunB
  rw [hat1] at hatA
  rw [hat2] at hatB
  simp only [Option.some.injEq] at hatA hatB
  subst hatA
  subst hatB
  rw [hvs1] at hdefA
  rw [hvs2] at hdefB
  rw [hdefA] at hdefB
  revert hdefB
  decide

end exec

namespace exec

/-- C2. For every publish plan node, whatever the other arguments and the state
of the factory, `Put` returns a step around one action allocated at a fresh
address, and afterwards the registry lookup under the node's plan ID yields
that very address, the one placed in the returned step; the object there is the
publish action built from the node. -/
theorem Put_registers_its_action {VS : Type} (ext : External VS) (factory : gardenFactory)
    (heap : Heap VS) (logger : Handle) (plan : atc.Plan) (put : atc.PutPlan) (build : db.Build)
    (stepMetadata : StepMetadata) (workerMetadata : db.ContainerMetadata)
    (buildEventsDelegate : Handle) (buildStepDelegate : BuildStepDelegate)
    (h : plan.Put = some put) :
    ∃ (step : Step) (factory1 : gardenFactory) (heap1 : Heap VS) (ptr : Ptr) (a : PutAction),
      factory.Put ext heap logger plan build stepMetadata workerMetadata buildEventsDelegate
          buildStepDelegate = some (step, factory1, heap1) ∧
        step.actions = [ptr] ∧
        GoMap.lookup plan.ID factory1.putActions = some ptr ∧
        heap[ptr]? = none ∧
        heap1.putActionAt ptr = some a ∧
        a.planID = plan.ID ∧ a.Name = put.Name ∧ a.Type_ = put.Type_ ∧
        a.Resource = put.Resource ∧ a.Source.raw = put.Source ∧ a.Params.raw = put.Params ∧
        a.Tags = put.Tags := by
  obtain ⟨planID, planGet, planPut, planTask⟩ := plan
  simp only at h
  subst h
  exact ⟨_, _, _, heap.length, _, rfl, rfl, by simp [GoMap.lookup_insert], by simp,
    Heap.putActionAt_alloc heap _, rfl, rfl, rfl, rfl, rfl, rfl, rfl⟩

/-- Witness: the sample publish node `a` on a
registry that already holds an entry under `a`. -/
theorem Put_registers_its_action_witness :
    Sample.putPlanA.Put = some Sample.putPart ∧
    ∃ (step : Step) (factory1 : gardenFactory) (heap1 : Heap Sample.VS) (ptr : Ptr)
      (a : PutAction),
      Sample.factoryA.Put Sample.ext Sample.heapA 0 Sample.putPlanA Sample.build []
          Sample.metadata 6 Sample.delegate = some (step, factory1, heap1) ∧
        step.actions = [ptr] ∧
        GoMap.lookup Sample.putPlanA.ID factory1.putActions = some ptr ∧
        Sample.heapA[ptr]? = none ∧
        heap1.putActionAt ptr = some a ∧
        a.planID = Sample.putPlanA.ID ∧ a.Name = Sample.putPart.Name ∧
        a.Type_ = Sample.putPart.Type_ ∧ a.Resource = Sample.putPart.Resource ∧
        a.Source.raw = Sample.putPart.Source ∧ a.Params.raw = Sample.putPart.Params ∧
        a.Tags = Sample.putPart.Tags :=
  ⟨rfl, Put_registers_its_action Sample.ext Sample.factoryA Sample.heapA 0 Sample.putPlanA
    Sample.putPart Sample.build [] Sample.metadata 6 Sample.delegate rfl⟩

/-- What `Task` returns for a task plan node: a step around one freshly
allocated task action whose configuration source is the chosen source inside
the validating and the deprecation wrappers; the registry is untouched. -/
theorem Task_configSource {VS : Type} (ext : External VS) (factory : gardenFactory)
    (heap : Heap VS) (logger : Handle) (plan : atc.Plan) (task : atc.TaskPlan) (build : db.Build)
    (containerMetadata : db.ContainerMetadata) (taskBuildEventsDelegate : Handle)
    (buildEventsDelegate : Handle) (buildStepDelegate : BuildStepDelegate)
    (h : plan.Task = some task) :
    ∃ (step : Step) (heap1 : Heap VS) (a : TaskAction),
      factory.Task ext heap logger plan build containerMetadata taskBuildEventsDelegate
          buildEventsDelegate buildStepDelegate = some (step, factory, heap1) ∧
        step.actions = [heap.length] ∧
        heap1.taskActionAt heap.length = some a ∧
        a.configSource = TaskConfigSource.DeprecationConfigSource
          (TaskConfigSource.ValidatingConfigSource (taskConfigSourceOf task))
          buildStepDelegate.Stderr := by
  obtain ⟨planID, planGet, planPut, planTask⟩ := plan
  simp only at h
  subst h
  exact ⟨_, _, _, rfl, rfl, Heap.taskActionAt_alloc heap _, rfl⟩

/-- C3 (amended). For every task plan node with a non-empty config path and no
inline config, the configuration source that `Task` builds inside the validating
and deprecation wrappers is the file source for that path when the node has no
step params (nil `Params`), and is the merged source of that file source (A)
and the static source of the node (B) when it has step params. -/
theorem Task_file_only_configSource {VS : Type} (ext : External VS) (factory : gardenFactory)
    (heap : Heap VS) (logger : Handle) (plan : atc.Plan) (task : atc.TaskPlan) (build : db.Build)
    (containerMetadata : db.ContainerMetadata) (taskBuildEventsDelegate : Handle)
    (buildEventsDelegate : Handle) (buildStepDelegate : BuildStepDelegate)
    (h : plan.Task = some task) (hpath : task.ConfigPath ≠ "") (hconfig : task.Config = none) :
    ∃ (step : Step) (heap1 : Heap VS) (a : TaskAction),
      factory.Task ext heap logger plan build containerMetadata taskBuildEventsDelegate
          buildEventsDelegate buildStepDelegate = some (step, factory, heap1) ∧
        step.actions = [heap.length] ∧
        heap1.taskActionAt heap.length = some a ∧
        (task.Params = none →
          a.configSource = TaskConfigSource.DeprecationConfigSource
            (TaskConfigSource.ValidatingConfigSource
              (TaskConfigSource.FileConfigSource task.ConfigPath))
            buildStepDelegate.Stderr) ∧
        (task.Params ≠ none →
          a.configSource = TaskConfigSource.DeprecationConfigSource
            (TaskConfigSource.ValidatingConfigSource
              (TaskConfigSource.MergedConfigSource
                (TaskConfigSource.FileConfigSource task.ConfigPath)
                (TaskConfigSource.StaticConfigSource task)))
            buildStepDelegate.Stderr) := by
  obtain ⟨step, heap1, a, hrun, hstep, hat, hsrc⟩ :=
    Task_configSource ext factory heap logger plan task build containerMetadata
      taskBuildEventsDelegate buildEventsDelegate buildStepDelegate h
  refine ⟨step, heap1, a, hrun, hstep, hat, ?_, ?_⟩
  · intro hparams
    rw [hsrc]
    simp [taskConfigSourceOf, hpath, hconfig, hparams]
  · intro hparams
    rw [hsrc]
    simp [taskConfigSourceOf, hpath, hconfig, hparams]

/-- Witness: the sample task node with a config
path only. -/
theorem Task_file_only_configSource_witness :
    (Sample.taskPlan Sample.taskFileOnly).Task = some Sample.taskFileOnly ∧
    Sample.taskFileOnly.ConfigPath ≠ "" ∧ Sample.taskFileOnly.Config = none ∧
    ∃ (step : Step) (heap1 : Heap Sample.VS) (a : TaskAction),
      Sample.factory.Task Sample.ext Sample.heapA 0 (Sample.taskPlan Sample.taskFileOnly)
          Sample.build Sample.metadata 5 6 Sample.delegate = some (step, Sample.factory, heap1) ∧
        step.actions = [Sample.heapA.length] ∧
        heap1.taskActionAt Sample.heapA.length = some a ∧
        (Sample.taskFileOnly.Params = none →
          a.configSource = TaskConfigSource.DeprecationConfigSource
            (TaskConfigSource.ValidatingConfigSource
              (TaskConfigSource.FileConfigSource Sample.taskFileOnly.ConfigPath))
            Sample.delegate.Stderr) ∧
        (Sample.taskFileOnly.Params ≠ none →
          a.configSource = TaskConfigSource.DeprecationConfigSource
            (TaskConfigSource.ValidatingConfigSource
              (TaskConfigSource.MergedConfigSource
                (TaskConfigSource.FileConfigSource Sample.taskFileOnly.ConfigPath)
                (TaskConfigSource.StaticConfigSource Sample.taskFileOnly)))
            Sample.delegate.Stderr) :=
  ⟨rfl, by decide, rfl,
    Task_file_only_configSource Sample.ext Sample.factory Sample.heapA 0
      (Sample.taskPlan Sample.taskFileOnly) Sample.taskFileOnly Sample.build Sample.metadata 5 6
      Sample.delegate rfl (by decide) rfl⟩

/-- C3 (counterexample). The sample task node with a config path, no inline
config and step params: `Task` builds the merged source, not the file
source. -/
theorem Task_file_only_counterexample :
    Sample.taskParamsOnly.ConfigPath ≠ "" ∧ Sample.taskParamsOnly.Config = none ∧
    ∃ (step : Step) (heap1 : Heap Sample.VS) (a : TaskAction),
      Sample.factory.Task Sample.ext [] 0 (Sample.taskPlan Sample.taskParamsOnly)
          Sample.build Sample.metadata 5 6 Sample.delegate = some (step, Sample.factory, heap1) ∧
        step.actions = [0] ∧
        heap1.taskActionAt 0 = some a ∧
        a.configSource = TaskConfigSource.DeprecationConfigSource
          (TaskConfigSource.ValidatingConfigSource
            (TaskConfigSource.MergedConfigSource
              (TaskConfigSource.FileConfigSource "ci/task.yml")
              (TaskConfigSource.StaticConfigSource Sample.taskParamsOnly))) 9 ∧
        a.configSource ≠ TaskConfigSource.DeprecationConfigSource
          (TaskConfigSource.ValidatingConfigSource
            (TaskConfigSource.FileConfigSource "ci/task.yml")) 9 := by
  refine ⟨by decide, rfl, ?_⟩
  obtain ⟨step, heap1, a, hrun, hstep, hat, hsrc⟩ :=
    Task_configSource Sample.ext Sample.factory [] 0 (Sample.taskPlan Sample.taskParamsOnly)
      Sample.taskParamsOnly Sample.build Sample.metadata 5 6 Sample.delegate rfl
  refine ⟨step, heap1, a, hrun, hstep, hat, ?_, ?_⟩
  · rw [hsrc]
    decide
  · rw [hsrc]
    decide

end exec

namespace GoMap

theorem lookup_append {β : Type} (k : String) (m n : List (String × β)) :
    lookup k (m ++ n) = match lookup k m with
      | some v => some v
      | none => lookup k n := by
  induction m with
  | nil => rfl
  | cons e m ih =>
    obtain ⟨a, v⟩ := e
    by_cases hak : k = a
    · simp [lookup, hak]
    · simp [lookup, hak, ih]

theorem lookup_filter_absent {β : Type} (k : String) (m n : List (String × β))
    (h : lookup k n = none) :
    lookup k (m.filter (fun e => (lookup e.1 n).isNone)) = lookup k m := by
  induction m with
  | nil => rfl
  | cons e m ih =>
    obtain ⟨a, v⟩ := e
    by_cases hak : k = a
    · subst hak
      simp [List.filter_cons, lookup, h]
    · by_cases hn : (lookup a n).isNone
      · simp [List.filter_cons, lookup, hak, hn, ih]
      · simp [List.filter_cons, lookup, hak, hn, ih]

end GoMap

namespace exec

/-- In a merged configuration a field present in B has B's value, and a field
absent from B has what A holds for it. -/
theorem mergeConfig_lookup (a b : atc.TaskConfig) (field : String) :
    (∀ v, GoMap.lookup field b = some v → GoMap.lookup field (mergeConfig a b) = some v) ∧
    (GoMap.lookup field b = none →
      GoMap.lookup field (mergeConfig a b) = GoMap.lookup field a) := by
  constructor
  · intro v hv
    simp [mergeConfig, GoMap.lookup_append, hv]
  · intro hnone
    simp [mergeConfig, GoMap.lookup_append, hnone, GoMap.lookup_filter_absent field a b hnone]

/-- C4. For every task plan node with neither an inline config nor a config
path, `Task` still returns a step; the configuration source it built is the nil
source inside the validating and deprecation wrappers, and resolving it fails
with the "missing task config" error, returning no configuration, whatever the
filesystem view. -/
theorem Task_missing_config {VS : Type} (ext : External VS) (factory : gardenFactory)
    (heap : Heap VS) (logger : Handle) (plan : atc.Plan) (task : atc.TaskPlan) (build : db.Build)
    (containerMetadata : db.ContainerMetadata) (taskBuildEventsDelegate : Handle)
    (buildEventsDelegate : Handle) (buildStepDelegate : BuildStepDelegate)
    (h : plan.Task = some task) (hconfig : task.Config = none) (hpath : task.ConfigPath = "") :
    ∃ (step : Step) (heap1 : Heap VS) (a : TaskAction),
      factory.Task ext heap logger plan build containerMetadata taskBuildEventsDelegate
          buildEventsDelegate buildStepDelegate = some (step, factory, heap1) ∧
        step.actions = [heap.length] ∧
        heap1.taskActionAt heap.length = some a ∧
        a.configSource = TaskConfigSource.DeprecationConfigSource
          (TaskConfigSource.ValidatingConfigSource TaskConfigSource.nil)
          buildStepDelegate.Stderr ∧
        ∀ r : Resolution,
          FetchConfig r a.configSource = (Except.error "missing task config", []) := by
  obtain ⟨step, heap1, a, hrun, hstep, hat, hsrc⟩ :=
    Task_configSource ext factory heap logger plan task build containerMetadata
      taskBuildEventsDelegate buildEventsDelegate buildStepDelegate h
  have hnil : taskConfigSourceOf task = TaskConfigSource.nil := by
    simp [taskConfigSourceOf, hconfig, hpath]
  rw [hnil] at hsrc
  refine ⟨step, heap1, a, hrun, hstep, hat, hsrc, ?_⟩
  intro r
  rw [hsrc]
  rfl

/-- Witness: the sample task node with neither a config
path nor an inline config. -/
theorem Task_missing_config_witness :
    (Sample.taskPlan Sample.taskNeither).Task = some Sample.taskNeither ∧
    Sample.taskNeither.Config = none ∧ Sample.taskNeither.ConfigPath = "" ∧
    ∃ (step : Step) (heap1 : Heap Sample.VS) (a : TaskAction),
      Sample.factory.Task Sample.ext Sample.heapA 0 (Sample.taskPlan Sample.taskNeither)
          Sample.build Sample.metadata 5 6 Sample.delegate = some (step, Sample.factory, heap1) ∧
        step.actions = [Sample.heapA.length] ∧
        heap1.taskActionAt Sample.heapA.length = some a ∧
        a.configSource = TaskConfigSource.DeprecationConfigSource
          (TaskConfigSource.ValidatingConfigSource TaskConfigSource.nil)
          Sample.delegate.Stderr ∧
        ∀ r : Resolution,
          FetchConfig r a.configSource = (Except.error "missing task config", []) :=
  ⟨rfl, rfl, rfl,
    Task_missing_config Sample.ext Sample.factory Sample.heapA 0
      (Sample.taskPlan Sample.taskNeither) Sample.taskNeither Sample.build Sample.metadata 5 6
      Sample.delegate rfl rfl rfl⟩

/-- C5. For every task plan node with both an inline config and a non-empty
config path, the configuration source that `Task` builds inside the validating
and deprecation wrappers is the merged source whose A side is the file source
for that path and whose B side is the static source holding the node's plan,
inline config included. Resolving that merged source on a readable file gives
the merge in which every field of the inline config has the inline value and
every other field has the file's value. -/
theorem Task_both_configSource {VS : Type} (ext : External VS) (factory : gardenFactory)
    (heap : Heap VS) (logger : Handle) (plan : atc.Plan) (task : atc.TaskPlan)
    (config : atc.TaskConfig) (build : db.Build)
    (containerMetadata : db.ContainerMetadata) (taskBuildEventsDelegate : Handle)
    (buildEventsDelegate : Handle) (buildStepDelegate : BuildStepDelegate)
    (h : plan.Task = some task) (hconfig : task.Config = some config)
    (hpath : task.ConfigPath ≠ "") :
    ∃ (step : Step) (heap1 : Heap VS) (a : TaskAction),
      factory.Task ext heap logger plan build containerMetadata taskBuildEventsDelegate
          buildEventsDelegate buildStepDelegate = some (step, factory, heap1) ∧
        step.actions = [heap.length] ∧
        heap1.taskActionAt heap.length = some a ∧
        a.configSource = TaskConfigSource.DeprecationConfigSource
          (TaskConfigSource.ValidatingConfigSource
            (TaskConfigSource.MergedConfigSource
              (TaskConfigSource.FileConfigSource task.ConfigPath)
              (TaskConfigSource.StaticConfigSource task)))
          buildStepDelegate.Stderr ∧
        ∀ (r : Resolution) (fileConfig : atc.TaskConfig),
          r.readFile task.ConfigPath = Except.ok fileConfig →
          FetchConfig r (TaskConfigSource.MergedConfigSource
              (TaskConfigSource.FileConfigSource task.ConfigPath)
              (TaskConfigSource.StaticConfigSource task)) =
            (Except.ok (mergeConfig fileConfig config), []) ∧
          ∀ field : String,
            (∀ v, GoMap.lookup field config = some v →
              GoMap.lookup field (mergeConfig fileConfig config) = some v) ∧
            (GoMap.lookup field config = none →
              GoMap.lookup field (mergeConfig fileConfig config) =
                GoMap.lookup field fileConfig) := by
  obtain ⟨step, heap1, a, hrun, hstep, hat, hsrc⟩ :=
    Task_configSource ext factory heap logger plan task build containerMetadata
      taskBuildEventsDelegate buildEventsDelegate buildStepDelegate h
  have hmerged : taskConfigSourceOf task = TaskConfigSource.MergedConfigSource
      (TaskConfigSource.FileConfigSource task.ConfigPath)
      (TaskConfigSource.StaticConfigSource task) := by
    simp [taskConfigSourceOf, hconfig, hpath]
  rw [hmerged] at hsrc
  refine ⟨step, heap1, a, hrun, hstep, hat, hsrc, ?_⟩
  intro r fileConfig hread
  refine ⟨?_, fun field => mergeConfig_lookup fileConfig config field⟩
  simp [FetchConfig, hread, hconfig]

/-- Witness: the sample task node with an inline
config and a config path. -/
theorem Task_both_configSource_witness :
    (Sample.taskPlan Sample.taskBoth).Task = some Sample.taskBoth ∧
    Sample.taskBoth.Config = some [("command", "run.sh")] ∧
    Sample.taskBoth.ConfigPath ≠ "" ∧
    ∃ (step : Step) (heap1 : Heap Sample.VS) (a : TaskAction),
      Sample.factory.Task Sample.ext Sample.heapA 0 (Sample.taskPlan Sample.taskBoth)
          Sample.build Sample.metadata 5 6 Sample.delegate = some (step, Sample.factory, heap1) ∧
        step.actions = [Sample.heapA.length] ∧
        heap1.taskActionAt Sample.heapA.length = some a ∧
        a.configSource = TaskConfigSource.DeprecationConfigSource
          (TaskConfigSource.ValidatingConfigSource
            (TaskConfigSource.MergedConfigSource
              (TaskConfigSource.FileConfigSource Sample.taskBoth.ConfigPath)
              (TaskConfigSource.StaticConfigSource Sample.taskBoth)))
          Sample.delegate.Stderr ∧
        ∀ (r : Resolution) (fileConfig : atc.TaskConfig),
          r.readFile Sample.taskBoth.ConfigPath = Except.ok fileConfig →
          FetchConfig r (TaskConfigSource.MergedConfigSource
              (TaskConfigSource.FileConfigSource Sample.taskBoth.ConfigPath)
              (TaskConfigSource.StaticConfigSource Sample.taskBoth)) =
            (Except.ok (mergeConfig fileConfig [("command", "run.sh")]), []) ∧
          ∀ field : String,
            (∀ v, GoMap.lookup field [("command", "run.sh")] = some v →
              GoMap.lookup field (mergeConfig fileConfig [("command", "run.sh")]) = some v) ∧
            (GoMap.lookup field [("command", "run.sh")] = none →
              GoMap.lookup field (mergeConfig fileConfig [("command", "run.sh")]) =
                GoMap.lookup field fileConfig) :=
  ⟨rfl, rfl, by decide,
    Task_both_configSource Sample.ext Sample.factory Sample.heapA 0
      (Sample.taskPlan Sample.taskBoth) Sample.taskBoth [("command", "run.sh")] Sample.build
      Sample.metadata 5 6 Sample.delegate rfl rfl (by decide)⟩

end exec

namespace exec

/-- The effect of one call on the registry and the heap: the heap grows by one
object at the address placed in the returned step; a `Put` writes that address
under its plan ID, where a publish action with that plan ID now lies; a `Get`
or a `Task` leaves the factory as it was. -/
theorem Call.run_effect {VS : Type} (ext : External VS) (factory factory1 : gardenFactory)
    (heap heap1 : Heap VS) (c : Call) (step : Step)
    (h : c.run ext factory heap = some (step, factory1, heap1)) :
    step.actions = [heap.length] ∧
    (∃ o, heap1 = heap ++ [o]) ∧
    (∀ id, c.putID = some id →
      factory1.putActions = GoMap.insert id heap.length factory.putActions ∧
      ∃ a, heap1.putActionAt heap.length = some a ∧ a.planID = id) ∧
    (c.putID = none → factory1 = factory) := by
  cases c with
  | Get logger plan build stepMetadata workerMetadata buildEventsDelegate buildStepDelegate =>
    obtain ⟨planID, planGet, planPut, planTask⟩ := plan
    cases planGet with
    | none => simp [Call.run, gardenFactory.Get] at h
    | some get =>
      simp only [Call.run, gardenFactory.Get, Heap.alloc, Option.some.injEq, Prod.mk.injEq] at h
      obtain ⟨rfl, rfl, rfl⟩ := h
      exact ⟨rfl, ⟨_, rfl⟩, fun id hid => by simp [Call.putID] at hid, fun _ => rfl⟩
  | Put logger plan build stepMetadata workerMetadata buildEventsDelegate buildStepDelegate =>
    obtain ⟨planID, planGet, planPut, planTask⟩ := plan
    cases planPut with
    | none => simp [Call.run, gardenFactory.Put] at h
    | some put =>
      simp only [Call.run, gardenFactory.Put, Heap.alloc, Option.some.injEq, Prod.mk.injEq] at h
      obtain ⟨rfl, rfl, rfl⟩ := h
      refine ⟨rfl, ⟨_, rfl⟩, ?_, fun hnone => by simp [Call.putID] at hnone⟩
      intro id hid
      simp only [Call.putID, Option.some.injEq] at hid
      subst hid
      exact ⟨rfl, _, Heap.putActionAt_alloc heap _, rfl⟩
  | Task logger plan build containerMetadata taskBuildEventsDelegate buildEventsDelegate
      buildStepDelegate =>
    obtain ⟨planID, planGet, planPut, planTask⟩ := plan
    cases planTask with
    | none => simp [Call.run, gardenFactory.Task] at h
    | some task =>
      simp only [Call.run, gardenFactory.Task, Heap.alloc, Option.some.injEq, Prod.mk.injEq] at h
      obtain ⟨rfl, rfl, rfl⟩ := h
      exact ⟨rfl, ⟨_, rfl⟩, fun id hid => by simp [Call.putID] at hid, fun _ => rfl⟩

/-- The registry entry under `id` after one call: the address in the returned
step when the call is a `Put` under `id`, the entry as it was otherwise. -/
theorem Call.run_lookup {VS : Type} (ext : External VS) (factory factory1 : gardenFactory)
    (heap heap1 : Heap VS) (c : Call) (step : Step)
    (h : c.run ext factory heap = some (step, factory1, heap1)) (id : atc.PlanID) :
    GoMap.lookup id factory1.putActions =
      if c.putID = some id then step.actions.head? else GoMap.lookup id factory.putActions := by
  obtain ⟨hstep, -, hput, hother⟩ := Call.run_effect ext factory factory1 heap heap1 c step h
  cases hc : c.putID with
  | none =>
    rw [hother hc]
    simp
  | some id0 =>
    obtain ⟨hreg, -⟩ := hput id0 hc
    rw [hreg, GoMap.lookup_insert, hstep]
    by_cases hid : id = id0
    · simp [hid]
    · have : ¬ id0 = id := fun e => hid e.symm
      simp [hid, this]

/-- The invariant of a sequence of calls from any starting factory: the entry
under `id` is the address given by the most recent `Put` under `id` if there
was one and the starting entry otherwise, and the object at that address is a
publish action with plan ID `id`. -/
theorem runCalls_registry {VS : Type} (ext : External VS) (calls : List Call) :
    ∀ (factory factory1 : gardenFactory) (heap heap1 : Heap VS) (steps : List Step),
      runCalls ext calls factory heap = some (steps, factory1, heap1) →
      ∀ id : atc.PlanID,
        (GoMap.lookup id factory1.putActions =
          match lastPut id calls steps with
          | some p => some p
          | none => GoMap.lookup id factory.putActions) ∧
        (∀ p, lastPut id calls steps = some p →
          ∃ a, heap1.putActionAt p = some a ∧ a.planID = id) ∧
        (∀ p a, heap.putActionAt p = some a → heap1.putActionAt p = some a) ∧
        ((∃ c ∈ calls, c.putID = some id) → (lastPut id calls steps).isSome) ∧
        ((∀ c ∈ calls, c.putID ≠ some id) → lastPut id calls steps = none) := by
  induction calls with
  | nil =>
    intro factory factory1 heap heap1 steps h id
    simp only [runCalls, Option.some.injEq, Prod.mk.injEq] at h
    obtain ⟨rfl, rfl, rfl⟩ := h
    simp [lastPut]
  | cons c cs ih =>
    intro factory factory1 heap heap1 steps h id
    simp only [runCalls] at h
    cases hc : c.run ext factory heap with
    | none => simp [hc] at h
    | some r =>
      obtain ⟨step, factoryM, heapM⟩ := r
      simp only [hc] at h
      cases hcs : runCalls ext cs factoryM heapM with
      | none => simp [hcs] at h
      | some r2 =>
        obtain ⟨steps2, factory2, heap2⟩ := r2
        simp only [hcs, Option.some.injEq, Prod.mk.injEq] at h
        obtain ⟨rfl, rfl, rfl⟩ := h
        obtain ⟨hlook, hobj, hmono, hsome, hnone⟩ := ih factoryM factory2 heapM heap2 steps2 hcs id
        obtain ⟨hstep, ⟨o, hheap⟩, hput, -⟩ :=
          Call.run_effect ext factory factoryM heap heapM c step hc
        have hone := Call.run_lookup ext factory factoryM heap heapM c step hc id
        refine ⟨?_, ?_, ?_, ?_, ?_⟩
        · rw [hlook, hone]
          simp only [lastPut]
          cases lastPut id cs steps2 with
          | some p => rfl
          | none =>
            by_cases hid : c.putID = some id
            · simp [hid, hstep]
            · simp [hid]
        · intro p hp
          simp only [lastPut] at hp
          cases hl : lastPut id cs steps2 with
          | some q =>
            rw [hl] at hp
            simp only [Option.some.injEq] at hp
            subst hp
            exact hobj q hl
          | none =>
            rw [hl] at hp
            by_cases hid : c.putID = some id
            · simp only [hid, if_true, hstep, List.head?_cons, Option.some.injEq] at hp
              subst hp
              obtain ⟨-, a, ha, hplan⟩ := hput id hid
              exact ⟨a, hmono _ a ha, hplan⟩
            · simp [hid] at hp
        · intro p a hpa
          apply hmono
          rw [hheap]
          exact Heap.putActionAt_append heap o p a hpa
        · rintro ⟨c0, hmem, hc0⟩
          simp only [lastPut]
          cases hl : lastPut id cs steps2 with
          | some q => rfl
          | none =>
            rcases List.mem_cons.mp hmem with rfl | hin
            · simp [hc0, hstep]
            · have := hsome ⟨c0, hin, hc0⟩
              rw [hl] at this
              simp at this
        · intro hall
          simp only [lastPut]
          rw [hnone (fun c0 hin => hall c0 (List.mem_cons_of_mem _ hin))]
          simp [hall c (List.mem_cons_self _ _)]

/-- C8. For every sequence of `Get`, `Put` and `Task` calls on a factory fresh
from `NewGardenFactory`, and every plan ID: the registry entry under the ID is
the address of the action in the step returned by the most recent `Put` under
that ID, where a publish action with that plan ID lies; it is present when some
`Put` used the ID and absent when none did. Call by call, a `Put` writes its own
ID's entry and every other entry stays as it was, through `Get`, `Task` and
`Put` alike. -/
theorem registry_holds_most_recent_put {VS : Type} (ext : External VS)
    (workerClient resourceFetcher resourceFactory dbResourceCacheFactory variablesFactory : Handle)
    (heap heap1 : Heap VS) (calls : List Call) (steps : List Step) (factory1 : gardenFactory)
    (h : runCalls ext calls (NewGardenFactory workerClient resourceFetcher resourceFactory
      dbResourceCacheFactory variablesFactory) heap = some (steps, factory1, heap1))
    (id : atc.PlanID) :
    GoMap.lookup id factory1.putActions = lastPut id calls steps ∧
    (∀ p, lastPut id calls steps = some p →
      ∃ a, heap1.putActionAt p = some a ∧ a.planID = id) ∧
    ((∃ c ∈ calls, c.putID = some id) → (GoMap.lookup id factory1.putActions).isSome) ∧
    ((∀ c ∈ calls, c.putID ≠ some id) → GoMap.lookup id factory1.putActions = none) ∧
    (∀ (f f1 : gardenFactory) (hp hp1 : Heap VS) (c : Call) (step : Step),
      c.run ext f hp = some (step, f1, hp1) →
      GoMap.lookup id f1.putActions =
        if c.putID = some id then step.actions.head? else GoMap.lookup id f.putActions) := by
  obtain ⟨hlook, hobj, -, hsome, hnone⟩ :=
    runCalls_registry ext calls _ factory1 heap heap1 steps h id
  have hreg : GoMap.lookup id factory1.putActions = lastPut id calls steps := by
    rw [hlook]
    cases lastPut id calls steps with
    | some p => rfl
    | none => rfl
  refine ⟨hreg, hobj, ?_, ?_, ?_⟩
  · intro hex
    rw [hreg]
    exact hsome hex
  · intro hall
    rw [hreg]
    exact hnone hall
  · intro f f1 hp hp1 c step hrun
    exact Call.run_lookup ext f f1 hp hp1 c step hrun id

end exec

namespace exec

/-- Witness: the sample calls, which publish
under `a`, fetch, publish under `b` and publish under `a` again, leave `a` at
the address of the last publish and `b` at the address of its own. -/
theorem registry_holds_most_recent_put_witness :
    runCalls Sample.ext Sample.calls (NewGardenFactory 1 2 3 4 5) [] =
      some (Sample.outcome.1, Sample.outcome.2.1, Sample.outcome.2.2) ∧
    Sample.outcome.2.1.putActions = [("a", 3), ("b", 2)] ∧
    (GoMap.lookup "a" Sample.outcome.2.1.putActions = lastPut "a" Sample.calls Sample.outcome.1 ∧
    (∀ p, lastPut "a" Sample.calls Sample.outcome.1 = some p →
      ∃ a, Sample.outcome.2.2.putActionAt p = some a ∧ a.planID = "a") ∧
    ((∃ c ∈ Sample.calls, c.putID = some "a") →
      (GoMap.lookup "a" Sample.outcome.2.1.putActions).isSome) ∧
    ((∀ c ∈ Sample.calls, c.putID ≠ some "a") →
      GoMap.lookup "a" Sample.outcome.2.1.putActions = none) ∧
    (∀ (f f1 : gardenFactory) (hp hp1 : Heap Sample.VS) (c : Call) (step : Step),
      c.run Sample.ext f hp = some (step, f1, hp1) →
      GoMap.lookup "a" f1.putActions =
        if c.putID = some "a" then step.actions.head? else GoMap.lookup "a" f.putActions)) :=
  ⟨rfl, rfl,
    registry_holds_most_recent_put Sample.ext 1 2 3 4 5 [] Sample.outcome.2.2 Sample.calls
      Sample.outcome.1 Sample.outcome.2.1 rfl "a"⟩

end exec

/-! ## The pipeline listing handler -/

namespace pipelineserver

/-- When no team is authenticated and the public listing fails, the handler
logs the failure, answers 500 and writes nothing to the body. -/
theorem ListAllPipelines_public_error (encode : List Pipeline → String) (s : Server)
    (pipelines : List Pipeline) (e : String) (h : s.PublicPipelines = (pipelines, some e)) :
    ListAllPipelines encode s Response.empty { authTeam := none } =
      some { status := some 500, header := [], body := "",
             log := ["failed-to-get-all-active-pipelines"] } := by
  simp [ListAllPipelines, h, respond, Response.WriteHeader, Response.empty,
    StatusInternalServerError]

/-- C10 (the code on the failing input). When a team is authenticated and found
and its `VisiblePipelines` returns an error together with the list `pipelines`,
the handler logs nothing, sets the JSON content type and writes the encoded list
to the body, which goes out with status 200: the error was assigned to the
`err` of the inner scope and the outer `err` that is tested is still nil. -/
theorem ListAllPipelines_visible_error_ignored (encode : List Pipeline → String)
    (teamName : String) (pipelines : List Pipeline) (e : String)
    (publicPipelines : List Pipeline × Error) :
    ListAllPipelines encode
        { FindTeam := fun _ => (some { VisiblePipelines := (pipelines, some e) }, true, none)
          PublicPipelines := publicPipelines }
        Response.empty { authTeam := some teamName } =
      some { status := some 200, header := [("Content-Type", "application/json")],
             body := encode pipelines, log := [] } := by
  simp [ListAllPipelines, respond, Response.Write, Response.empty]

end pipelineserver

/-! ## The working directory of a task -/

namespace fmt

/-- The sixteen lowercase hexadecimal digits. -/
theorem hexDigit_mem (n : Nat) : hexDigit n ∈ "0123456789abcdef".data := by
  unfold hexDigit
  split <;> decide

theorem hexDigit_injective :
    ∀ a < 16, ∀ b < 16, hexDigit a = hexDigit b → a = b := by
  decide

theorem hex_length (bs : List Nat) : (hex bs).length = 2 * bs.length := by
  induction bs with
  | nil => rfl
  | cons b bs ih => simp [hex, ih]; omega

theorem hex_mem (bs : List Nat) : ∀ c ∈ hex bs, c ∈ "0123456789abcdef".data := by
  induction bs with
  | nil => intro c hc; simp [hex] at hc
  | cons b bs ih =>
    intro c hc
    simp only [hex, List.mem_cons] at hc
    rcases hc with rfl | rfl | hc
    · exact hexDigit_mem _
    · exact hexDigit_mem _
    · exact ih c hc

/-- Two byte strings of the same length with the same hexadecimal form are
equal. -/
theorem hex_injective : ∀ (bs cs : List Nat), (∀ b ∈ bs, b < 256) → (∀ c ∈ cs, c < 256) →
    bs.length = cs.length → hex bs = hex cs → bs = cs := by
  intro bs
  induction bs with
  | nil =>
    intro cs _ _ hlen _
    cases cs with
    | nil => rfl
    | cons c cs => simp at hlen
  | cons b bs ih =>
    intro cs hb hc hlen heq
    cases cs with
    | nil => simp at hlen
    | cons c cs =>
      simp only [hex, List.cons.injEq] at heq
      obtain ⟨hhi, hlo, hrest⟩ := heq
      have h1 := hexDigit_injective _ (Nat.mod_lt _ (by decide)) _ (Nat.mod_lt _ (by decide)) hhi
      have h2 := hexDigit_injective _ (Nat.mod_lt _ (by decide)) _ (Nat.mod_lt _ (by decide)) hlo
      have hb' : b < 256 := hb b (List.mem_cons_self _ _)
      have hc' : c < 256 := hc c (List.mem_cons_self _ _)
      have hbc : b = c := by omega
      have htl := ih cs (fun x hx => hb x (List.mem_cons_of_mem _ hx))
        (fun x hx => hc x (List.mem_cons_of_mem _ hx)) (by simpa using hlen) hrest
      rw [hbc, htl]

end fmt

namespace sha1

theorem bytes_length (x : Nat) : (bytes x).length = 4 := rfl

theorem bytes_lt (x : Nat) : ∀ b ∈ bytes x, b < 256 := by
  intro b hb
  simp only [bytes, List.mem_cons, List.mem_singleton, List.not_mem_nil, or_false] at hb
  rcases hb with rfl | rfl | rfl | rfl <;> exact Nat.mod_lt _ (by decide)

/-- The digest has twenty bytes. -/
theorem Sum_length (data : List Nat) : (Sum data).length = 20 := by
  simp [Sum, bytes_length]

/-- The first four bytes of the digest are the bytes of the first state word. -/
theorem Sum_take_four (data : List Nat) :
    (Sum data).take 4 =
      bytes (blocks ((data ++ padding data.length).length / 64) init
        (data ++ padding data.length)).h0 := by
  simp only [Sum]
  rw [List.append_assoc, List.append_assoc, List.append_assoc]
  exact List.take_left' (bytes_length _)

theorem Sum_take_four_length (data : List Nat) : ((Sum data).take 4).length = 4 := by
  rw [Sum_take_four]
  rfl

theorem Sum_take_four_lt (data : List Nat) : ∀ b ∈ (Sum data).take 4, b < 256 := by
  rw [Sum_take_four]
  exact bytes_lt _

end sha1

namespace filepath

/-- A run of characters without separator is a single path element. -/
theorem splitAux_no_separator (h cur : List Char) (hsep : ∀ c ∈ h, c ≠ '/') :
    splitAux h cur = [cur.reverse ++ h] := by
  induction h generalizing cur with
  | nil => simp [splitAux]
  | cons c cs ih =>
    have hc : c ≠ '/' := hsep c (List.mem_cons_self _ _)
    simp only [splitAux, hc, if_false]
    rw [ih (c :: cur) (fun x hx => hsep x (List.mem_cons_of_mem _ hx))]
    simp

/-- Cleaning `/tmp/build/` followed by an element that holds no separator and is
neither empty, `.` nor `..` changes nothing. -/
theorem Clean_tmp_build (h : List Char) (hne : h ≠ []) (hsep : ∀ c ∈ h, c ≠ '/')
    (hd1 : h ≠ ['.']) (hd2 : h ≠ ['.', '.']) :
    Clean ('/' :: 't' :: 'm' :: 'p' :: '/' :: 'b' :: 'u' :: 'i' :: 'l' :: 'd' :: '/' :: h) =
      '/' :: 't' :: 'm' :: 'p' :: '/' :: 'b' :: 'u' :: 'i' :: 'l' :: 'd' :: '/' :: h := by
  have hsplit : split ('/' :: 't' :: 'm' :: 'p' :: '/' :: 'b' :: 'u' :: 'i' :: 'l' :: 'd' :: '/' :: h)
      = [[], ['t', 'm', 'p'], ['b', 'u', 'i', 'l', 'd'], h] := by
    simp [split, splitAux, splitAux_no_separator h [] hsep]
  unfold Clean
  rw [hsplit]
  simp [List.intercalate, List.intersperse, List.foldl, cleanStep, hne, hd1, hd2]

/-- Joining the scratch root with a non-empty element that holds no separator
and no dot appends the element to `/tmp/build/`. -/
theorem Join_tmp_build (h : List Char) (hne : h ≠ []) (hsep : ∀ c ∈ h, c ≠ '/')
    (hdot : ∀ c ∈ h, c ≠ '.') :
    Join ["/tmp", "build", String.mk h] = "/tmp/build/" ++ String.mk h := by
  have hd1 : h ≠ ['.'] := by
    rintro rfl
    exact hdot '.' (List.mem_cons_self _ _) rfl
  have hd2 : h ≠ ['.', '.'] := by
    rintro rfl
    exact hdot '.' (List.mem_cons_self _ _) rfl
  have htmp : "/tmp".data = ['/', 't', 'm', 'p'] := rfl
  have hbuild : "build".data = ['b', 'u', 'i', 'l', 'd'] := rfl
  have hemp : h.isEmpty = false := by
    cases h with
    | nil => exact absurd rfl hne
    | cons c cs => rfl
  have hparts : (["/tmp", "build", String.mk h].map String.data).filter (fun e => !e.isEmpty)
      = [['/', 't', 'm', 'p'], ['b', 'u', 'i', 'l', 'd'], h] := by
    simp [htmp, hbuild, List.filter_cons, hemp]
  have hjoin : List.intercalate ['/'] [['/', 't', 'm', 'p'], ['b', 'u', 'i', 'l', 'd'], h]
      = '/' :: 't' :: 'm' :: 'p' :: '/' :: 'b' :: 'u' :: 'i' :: 'l' :: 'd' :: '/' :: h := by
    simp [List.intercalate, List.intersperse]
  unfold Join
  simp only [hparts, hjoin, Clean_tmp_build h hne hsep hd1 hd2]
  apply String.ext
  simp

end filepath

namespace sha1

set_option maxRecDepth 100000 in
/-- The digest of the empty message is the standard one,
`da39a3ee5e6b4b0d3255bfef95601890afd80709`. -/
theorem Sum_empty :
    Sum (bytesOf "") = [0xda, 0x39, 0xa3, 0xee, 0x5e, 0x6b, 0x4b, 0x0d, 0x32, 0x55,
      0xbf, 0xef, 0x95, 0x60, 0x18, 0x90, 0xaf, 0xd8, 0x07, 0x09] := by
  decide

set_option maxRecDepth 100000 in
/-- The digest of `abc` is the standard one,
`a9993e364706816aba3e25717850c26c9cd0d89d`. -/
theorem Sum_abc :
    Sum (bytesOf "abc") = [0xa9, 0x99, 0x3e, 0x36, 0x47, 0x06, 0x81, 0x6a, 0xba, 0x3e,
      0x25, 0x71, 0x78, 0x50, 0xc2, 0x6c, 0x9c, 0xd0, 0xd8, 0x9d] := by
  decide

set_option maxRecDepth 100000 in
/-- The digests of `test-1504` and `deploy-367` start with the same four bytes,
`f1 00 5d 3d`. -/
theorem Sum_collision_first_four :
    (Sum (bytesOf "test-1504")).take 4 = [0xf1, 0x00, 0x5d, 0x3d] ∧
    (Sum (bytesOf "deploy-367")).take 4 = [0xf1, 0x00, 0x5d, 0x3d] := by
  decide

end sha1

namespace exec

/-- The working directory in closed form: `/tmp/build/` followed by the
hexadecimal form of the first four digest bytes; the cleaning done by the join
changes nothing. -/
theorem taskWorkingDirectory_eq (factory : gardenFactory) (sourceName : String) :
    factory.taskWorkingDirectory sourceName =
      "/tmp/build/" ++ String.mk (fmt.hex ((sha1.Sum (bytesOf sourceName)).take 4)) := by
  have hmem := fmt.hex_mem ((sha1.Sum (bytesOf sourceName)).take 4)
  have hlen : (fmt.hex ((sha1.Sum (bytesOf sourceName)).take 4)).length = 8 := by
    rw [fmt.hex_length, sha1.Sum_take_four_length]
  have hset : ∀ c ∈ "0123456789abcdef".data, c ≠ '/' ∧ c ≠ '.' := by decide
  unfold gardenFactory.taskWorkingDirectory
  apply filepath.Join_tmp_build
  · intro hnil
    rw [hnil] at hlen
    simp at hlen
  · exact fun c hc => (hset c (hmem c hc)).1
  · exact fun c hc => (hset c (hmem c hc)).2

/-- C7. For every artifact name, whatever characters it holds, the working
directory is `/tmp/build/` followed by the hexadecimal form of the first four
bytes of the SHA-1 digest of the name: exactly eight characters, every one a
lowercase hexadecimal digit, so that the path has nineteen characters. -/
theorem taskWorkingDirectory_shape (factory : gardenFactory) (sourceName : String) :
    factory.taskWorkingDirectory sourceName =
      "/tmp/build/" ++ String.mk (fmt.hex ((sha1.Sum (bytesOf sourceName)).take 4)) ∧
    ((sha1.Sum (bytesOf sourceName)).take 4).length = 4 ∧
    (fmt.hex ((sha1.Sum (bytesOf sourceName)).take 4)).length = 8 ∧
    (∀ c ∈ fmt.hex ((sha1.Sum (bytesOf sourceName)).take 4), c ∈ "0123456789abcdef".data) ∧
    (factory.taskWorkingDirectory sourceName).length = 19 := by
  have hlen : (fmt.hex ((sha1.Sum (bytesOf sourceName)).take 4)).length = 8 := by
    rw [fmt.hex_length, sha1.Sum_take_four_length]
  refine ⟨taskWorkingDirectory_eq factory sourceName, sha1.Sum_take_four_length _, hlen,
    fmt.hex_mem _, ?_⟩
  rw [taskWorkingDirectory_eq, String.length_append]
  show "/tmp/build/".length + (fmt.hex ((sha1.Sum (bytesOf sourceName)).take 4)).length = 19
  rw [hlen]
  rfl

/-- C6 (amended). The working directory is a function of the name alone, and
two names get the same working directory exactly when the first four bytes of
their SHA-1 digests agree; names whose digests differ there get different
paths. -/
theorem taskWorkingDirectory_eq_iff (factory : gardenFactory) (a b : String) :
    factory.taskWorkingDirectory a = factory.taskWorkingDirectory b ↔
      (sha1.Sum (bytesOf a)).take 4 = (sha1.Sum (bytesOf b)).take 4 := by
  rw [taskWorkingDirectory_eq, taskWorkingDirectory_eq]
  constructor
  · intro h
    have hdata := congrArg String.data h
    simp only [String.data_append, List.append_cancel_left_eq] at hdata
    exact fmt.hex_injective _ _ (sha1.Sum_take_four_lt _) (sha1.Sum_take_four_lt _)
      (by rw [sha1.Sum_take_four_length, sha1.Sum_take_four_length]) hdata
  · intro h
    rw [h]

/-- C6 (counterexample). The two different artifact names `test-1504` and
`deploy-367` get the same working directory, `/tmp/build/f1005d3d`. -/
theorem taskWorkingDirectory_collision :
    "test-1504" ≠ "deploy-367" ∧
    Sample.factory.taskWorkingDirectory "test-1504" = "/tmp/build/f1005d3d" ∧
    Sample.factory.taskWorkingDirectory "deploy-367" = "/tmp/build/f1005d3d" := by
  refine ⟨by decide, ?_, ?_⟩
  · rw [taskWorkingDirectory_eq, sha1.Sum_collision_first_four.1]
    decide
  · rw [taskWorkingDirectory_eq, sha1.Sum_collision_first_four.2]
    decide

end exec
